import Mathlib

/-!
Shallow embedding of the step-sequencing engine in `src/lib/sequence.ts`.

The JS `Sequence` class keeps an ordered array `steps` of callbacks, a
`Map` from labels to indices, and an optional shared mutable context.
`runStep` dispatches one step at a time; the context object handed to a
step exposes `stop` / `back` / `skip` / `jump`, each of which throws a
control-signal error (`SequenceStopError`, `SequenceJumpError`) that the
dispatcher catches to redirect execution.

Embedding choices:
* JS exceptions inside a step body become the `StepRun` monad: a
  context-threaded computation returning `Except JSError α` together with
  the context at the moment of return or throw (mutations made before a
  throw survive, exactly as with a shared mutable object in JS).
* The `Map<string, number>` becomes an association list with JS `Map`
  get/has/set semantics (`mapGet`, `mapHas`, `mapSet`).
* JS array indexing `steps[index]` with an arbitrary (possibly negative)
  number becomes `lookupStep` over `Int`.
* The recursive dispatcher gets a `fuel` parameter; `none` means the
  recursion did not settle within `fuel` dispatch cycles (jump cycles can
  loop forever in the source).  The dispatcher also returns the trace of
  invoked step indices, in order, and threads the `Sequence` record
  through so that frame properties are statable.
-/

namespace SequenceTs

/-- Errors thrown inside the engine: the two control signals
(`SequenceStopError`, `SequenceJumpError to`) and ordinary `Error(message)`
values (step-not-found, label-not-found, duplicate label). -/
inductive JSError : Type where
  | sequenceStop : JSError
  | sequenceJump : Option Int → JSError
  | genericError : String → JSError
deriving DecidableEq, Repr

/-- A computation inside a step body: threads the shared mutable context
and may throw a `JSError`.  The context component of the result is the
state of the shared object at the moment of normal return or of throw. -/
def StepRun (Ctx α : Type) : Type := Ctx → Except JSError α × Ctx

namespace StepRun

variable {Ctx α β : Type}

/-- Sequencing of step-body computations; a throw short-circuits the
continuation while keeping the context mutations made so far. -/
def bind (m : StepRun Ctx α) (k : α → StepRun Ctx β) : StepRun Ctx β :=
  fun ctx =>
    match m ctx with
    | (Except.ok a, ctx1) => k a ctx1
    | (Except.error e, ctx1) => (Except.error e, ctx1)

/-- Throwing a JS error from a step body. -/
def throwErr (e : JSError) : StepRun Ctx α := fun ctx => (Except.error e, ctx)

/-- Reading the shared context (JS: reading through the shared reference). -/
def getContext : StepRun Ctx Ctx := fun ctx => (Except.ok ctx, ctx)

/-- Mutating the shared context (JS: writing through the shared reference). -/
def mutateContext (f : Ctx → Ctx) : StepRun Ctx Unit := fun ctx => (Except.ok (), f ctx)

end StepRun

/-- The per-invocation object handed to a step callback
(`SequenceStepCallbackContext` in the source): the step's index and the
four navigation operations.  Each operation has JS type `never`, embedded
as `StepRun Ctx Empty`. -/
structure SequenceStepCallbackContext (Ctx : Type) : Type where
  index : Int
  stop : StepRun Ctx Empty
  back : StepRun Ctx Empty
  skip : StepRun Ctx Empty
  jump : Int ⊕ String → StepRun Ctx Empty

/-- A registered step callback (`SequenceStepCallback` in the source). -/
def SequenceStepCallback (Ctx : Type) : Type :=
  SequenceStepCallbackContext Ctx → StepRun Ctx Unit

/-- JS `Map.get` on the label→index map (first binding wins; `mapSet`
below never creates duplicates, mirroring `Map` keys being unique). -/
def mapGet (m : List (String × Nat)) (key : String) : Option Nat :=
  (m.find? (fun p => p.1 == key)).map (fun p => p.2)

/-- JS `Map.has`. -/
def mapHas (m : List (String × Nat)) (key : String) : Bool :=
  (mapGet m key).isSome

/-- JS `Map.set`: overwrite the binding if the key is present, else append. -/
def mapSet (m : List (String × Nat)) (key : String) (value : Nat) :
    List (String × Nat) :=
  if mapHas m key then m.map (fun p => if p.1 == key then (key, value) else p)
  else m ++ [(key, value)]

/-- The `Sequence` object's private state: the step array, the
label→index map, and the constructor-supplied default context. -/
structure Sequence (Ctx : Type) : Type where
  steps : List (SequenceStepCallback Ctx)
  stepsLabelIndexMap : List (String × Nat)
  context : Ctx

/-- JS array indexing `steps[index]` for an arbitrary integer index:
`undefined` (here `none`) for negative or out-of-range indices. -/
def lookupStep {α : Type} (steps : List α) (index : Int) : Option α :=
  if 0 ≤ index then steps[index.toNat]? else none

/-- The `next` computation at the top of `runStep`:
`index + 1 === this.steps.length ? null : index + 1`. -/
def nextIndex {α : Type} (steps : List α) (index : Int) : Option Int :=
  if index + 1 = (steps.length : Int) then none else some (index + 1)

variable {Ctx : Type}

/-- The `stepContext` object built inside `runStep` (source lines
125–154): `stop` throws `SequenceStopError`; `back` throws
`SequenceJumpError(index - 1)`; `skip` throws `SequenceJumpError(next)`;
`jump` resolves a string against the label map (throwing a plain `Error`
when the label is unregistered) and treats the number `-1` as the
last-step sentinel, then throws `SequenceJumpError` at the resolved
index. -/
def mkStepContext (steps : List (SequenceStepCallback Ctx))
    (labelMap : List (String × Nat)) (index : Int) (next : Option Int) :
    SequenceStepCallbackContext Ctx where
  index := index
  stop := StepRun.throwErr JSError.sequenceStop
  back := StepRun.throwErr (JSError.sequenceJump (some (index - 1)))
  skip := StepRun.throwErr (JSError.sequenceJump next)
  jump := fun target =>
    match target with
    | Sum.inr label =>
      match mapGet labelMap label with
      | none =>
        StepRun.throwErr
          (JSError.genericError s!"No step function found with label \"{label}\".")
      | some i => StepRun.throwErr (JSError.sequenceJump (some (i : Int)))
    | Sum.inl n =>
      if n = -1 then
        StepRun.throwErr (JSError.sequenceJump (some ((steps.length : Int) - 1)))
      else StepRun.throwErr (JSError.sequenceJump (some n))

/-- The private dispatcher `runStep` (source lines 116–169), with fuel.
Returns the threaded `Sequence` state, and `some (trace, outcome)` where
`trace` lists the indices of the callbacks actually invoked, in order,
and `outcome` is `ok` with the final context when the returned promise
resolves and `error` when it rejects; `none` means fuel ran out.
Mirrors the source: absent step ⇒ throw step-not-found before invoking
anything; normal completion ⇒ recurse at `next` unless `null`;
`SequenceStopError` and `SequenceJumpError(null)` ⇒ resolve;
`SequenceJumpError(i)` ⇒ recurse at `i`; any other error propagates. -/
def Sequence.runStep : Nat → Sequence Ctx → Int → Ctx →
    Sequence Ctx × Option (List Int × Except JSError Ctx)
  | 0, seq, _, _ => (seq, none)
  | fuel + 1, seq, index, ctx =>
    match lookupStep seq.steps index with
    | none =>
      (seq, some ([], Except.error
        (JSError.genericError s!"No step function found at index {index}.")))
    | some stepFunction =>
      match stepFunction
          (mkStepContext seq.steps seq.stepsLabelIndexMap index
            (nextIndex seq.steps index)) ctx with
      | (Except.ok _, ctx1) =>
        match nextIndex seq.steps index with
        | none => (seq, some ([index], Except.ok ctx1))
        | some n =>
          let rest := Sequence.runStep fuel seq n ctx1
          (rest.1, rest.2.map (fun p => (index :: p.1, p.2)))
      | (Except.error JSError.sequenceStop, ctx1) =>
        (seq, some ([index], Except.ok ctx1))
      | (Except.error (JSError.sequenceJump none), ctx1) =>
        (seq, some ([index], Except.ok ctx1))
      | (Except.error (JSError.sequenceJump (some target)), ctx1) =>
        let rest := Sequence.runStep fuel seq target ctx1
        (rest.1, rest.2.map (fun p => (index :: p.1, p.2)))
      | (Except.error (JSError.genericError msg), _) =>
        (seq, some ([index], Except.error (JSError.genericError msg)))

/-- The `AbortSignal` option of `run`: only its `aborted` flag matters. -/
structure AbortSignal : Type where
  aborted : Bool

/-- The options bag of `run`. -/
structure RunOptions (Ctx : Type) : Type where
  context : Option Ctx
  signal : Option AbortSignal

/-- The public `run` method (source lines 205–214): resolves the per-run
context as `options.context ?? this.context`, then dispatches from index
0.  Note the source never reads `options.signal` (the class carries a
`TODO: abort with AbortController`), so neither does this embedding. -/
def Sequence.run (fuel : Nat) (seq : Sequence Ctx) (options : RunOptions Ctx) :
    Sequence Ctx × Option (List Int × Except JSError Ctx) :=
  Sequence.runStep fuel seq 0 (options.context.getD seq.context)

/-- The unlabeled `step(callback)` overload: append the callback. -/
def Sequence.step (seq : Sequence Ctx) (callback : SequenceStepCallback Ctx) :
    Sequence Ctx :=
  Sequence.mk (seq.steps ++ [callback]) seq.stepsLabelIndexMap seq.context

/-- The labeled `step(label, callback)` overload (source lines 181–200).
Faithful to the source order: the callback is pushed onto `steps` first,
then the duplicate-label check runs and throws — so a duplicate
registration leaves the pushed callback behind.  The thrown error is
returned as the second component. -/
def Sequence.stepLabeled (seq : Sequence Ctx) (label : String)
    (callback : SequenceStepCallback Ctx) : Sequence Ctx × Option JSError :=
  let steps := seq.steps ++ [callback]
  let length := steps.length
  if mapHas seq.stepsLabelIndexMap label then
    (Sequence.mk steps seq.stepsLabelIndexMap seq.context,
      some (JSError.genericError
        s!"Step function with label \"{label}\" already defined."))
  else
    (Sequence.mk steps (mapSet seq.stepsLabelIndexMap label (length - 1))
      seq.context, none)

/-- A step body that immediately invokes one of the navigation operations
of its callback context; the `Empty` eliminator reflects the JS `never`
return type (control cannot come back). -/
def callNav (op : SequenceStepCallbackContext Ctx → StepRun Ctx Empty) :
    SequenceStepCallback Ctx :=
  fun sc => StepRun.bind (op sc) (fun e => e.elim)

/-- A step body that only mutates the shared context and returns. -/
def pureStep (f : Ctx → Ctx) : SequenceStepCallback Ctx :=
  fun _ => StepRun.mutateContext f

theorem lookupStep_natCast {α : Type} (steps : List α) (i : Nat) :
    lookupStep steps (i : Int) = steps[i]? := by
  simp [lookupStep]

theorem lookupStep_neg {α : Type} (steps : List α) (i : Int) (h : i < 0) :
    lookupStep steps i = none := by
  simp [lookupStep]
  omega

theorem lookupStep_ge {α : Type} (steps : List α) (i : Int)
    (h : (steps.length : Int) ≤ i) :
    lookupStep steps i = none := by
  unfold lookupStep
  rcases le_or_lt 0 i with h0 | h0
  · rw [if_pos h0, List.getElem?_eq_none]
    omega
  · rw [if_neg (by omega)]

/-- The dispatcher never modifies the sequence state it threads through. -/
theorem runStep_state (seq : Sequence Ctx) :
    ∀ (fuel : Nat) (index : Int) (ctx : Ctx),
      (seq.runStep fuel index ctx).1 = seq := by
  intro fuel
  induction fuel with
  | zero => intro index ctx; rfl
  | succ fuel ih =>
    intro index ctx
    rw [Sequence.runStep]
    split
    · rfl
    · split
      · split
        · rfl
        · exact ih _ _
      · rfl
      · rfl
      · exact ih _ _
      · rfl

/-- When the dispatch at `i` finds a step there and settles, the trace it
reports starts with `i` (the step at `i` is the one invoked first). -/
theorem runStep_head (seq : Sequence Ctx) (fuel : Nat) (i : Int) (ctx : Ctx)
    (f : SequenceStepCallback Ctx) (hf : lookupStep seq.steps i = some f) :
    ∀ tr r, (seq.runStep (fuel + 1) i ctx).2 = some (tr, r) →
      ∃ tl, tr = i :: tl := by
  intro tr r h
  simp only [Sequence.runStep, hf] at h
  split at h
  · split at h
    · simp only [Option.some.injEq, Prod.mk.injEq] at h
      exact ⟨[], h.1.symm⟩
    · simp only [Option.map_eq_some'] at h
      obtain ⟨p, _, hp⟩ := h
      cases hp
      exact ⟨p.1, rfl⟩
  · simp only [Option.some.injEq, Prod.mk.injEq] at h
    exact ⟨[], h.1.symm⟩
  · simp only [Option.some.injEq, Prod.mk.injEq] at h
    exact ⟨[], h.1.symm⟩
  · simp only [Option.map_eq_some'] at h
    obtain ⟨p, _, hp⟩ := h
    cases hp
    exact ⟨p.1, rfl⟩
  · simp only [Option.some.injEq, Prod.mk.injEq] at h
    exact ⟨[], h.1.symm⟩

theorem lookupStep_lt {α : Type} (steps : List α) (i : Nat)
    (h : i < steps.length) :
    lookupStep steps (i : Int) = some steps[i] := by
  rw [lookupStep_natCast, List.getElem?_eq_getElem h]

theorem nextIndex_last {α : Type} (steps : List α) (i : Nat)
    (h : i + 1 = steps.length) :
    nextIndex steps (i : Int) = none := by
  unfold nextIndex
  rw [if_pos (by omega)]

theorem nextIndex_mid {α : Type} (steps : List α) (i : Nat)
    (h : i + 1 ≠ steps.length) :
    nextIndex steps (i : Int) = some ((i : Int) + 1) := by
  unfold nextIndex
  rw [if_neg (by omega)]

/-- The trace of invoking the steps at positions `l` (as JS indices). -/
def castTrace (l : List Nat) : List Int := l.map (fun n => (n : Int))

theorem castTrace_cons (i : Nat) (l : List Nat) :
    castTrace (i :: l) = (i : Int) :: castTrace l := rfl

/-- Dispatching from index `i` over steps that all complete normally
invokes indices `i, i+1, ..., N-1` in order and resolves. -/
theorem runStep_allOk (seq : Sequence Ctx)
    (hok : ∀ f ∈ seq.steps, ∀ sc c, (f sc c).1 = Except.ok ()) :
    ∀ (fuel i : Nat) (ctx : Ctx), i < seq.steps.length →
      seq.steps.length - i ≤ fuel →
      ∃ c1, (seq.runStep fuel (i : Int) ctx).2 =
        some (castTrace (List.range' i (seq.steps.length - i)),
          Except.ok c1) := by
  intro fuel
  induction fuel with
  | zero => intro i ctx hi hle; omega
  | succ fuel ih =>
    intro i ctx hi hle
    have hstep := lookupStep_lt seq.steps i hi
    have hmem : seq.steps[i] ∈ seq.steps := List.getElem_mem hi
    rcases hres : seq.steps[i] (mkStepContext seq.steps seq.stepsLabelIndexMap
        (i : Int) (nextIndex seq.steps (i : Int))) ctx with ⟨r1, ctx1⟩
    have h1 := hok _ hmem (mkStepContext seq.steps seq.stepsLabelIndexMap
        (i : Int) (nextIndex seq.steps (i : Int))) ctx
    rw [hres] at h1
    simp only at h1
    subst h1
    by_cases hN : i + 1 = seq.steps.length
    · refine ⟨ctx1, ?_⟩
      have hnone := nextIndex_last seq.steps i hN
      rw [hnone] at hres
      have h3 : seq.steps.length - i = 1 := by omega
      simp only [Sequence.runStep, hstep, hnone, hres, h3]
      rfl
    · have hi1 : i + 1 < seq.steps.length := by omega
      obtain ⟨c1, hc1⟩ := ih (i + 1) ctx1 hi1 (by omega)
      refine ⟨c1, ?_⟩
      have hsome := nextIndex_mid seq.steps i hN
      have hcast : ((i : Int) + 1) = ((i + 1 : Nat) : Int) := by push_cast; ring
      rw [hcast] at hsome
      rw [hsome] at hres
      simp only [Sequence.runStep, hstep, hsome, hres, hc1]
      have h4 : seq.steps.length - i = (seq.steps.length - (i + 1)) + 1 := by
        omega
      rw [h4, List.range'_succ, castTrace_cons, Option.map_some']

/-- Dispatching from index `i` over a list of pure context-mutating steps
invokes `i, ..., N-1` in order and resolves with the left fold of the
mutations from index `i` on. -/
theorem runStep_fold (fs : List (Ctx → Ctx)) (lm : List (String × Nat))
    (c0 : Ctx) :
    ∀ (fuel i : Nat) (ctx : Ctx), i < fs.length → fs.length - i ≤ fuel →
      ((Sequence.mk (fs.map pureStep) lm c0).runStep fuel (i : Int) ctx).2 =
        some (castTrace (List.range' i (fs.length - i)),
          Except.ok ((fs.drop i).foldl (fun c f => f c) ctx)) := by
  intro fuel
  induction fuel with
  | zero => intro i ctx hi hle; omega
  | succ fuel ih =>
    intro i ctx hi hle
    have hlen : (fs.map pureStep).length = fs.length := List.length_map _ _
    have hil : i < (fs.map pureStep).length := by rw [hlen]; exact hi
    have hstep := lookupStep_lt (fs.map pureStep) i hil
    have hget : (fs.map pureStep)[i] = pureStep fs[i] := List.getElem_map _
    have hdrop : fs.drop i = fs[i] :: fs.drop (i + 1) :=
      List.drop_eq_getElem_cons hi
    by_cases hN : i + 1 = fs.length
    · have hnone : nextIndex (fs.map pureStep) (i : Int) = none := by
        apply nextIndex_last
        omega
      simp only [Sequence.runStep, hstep, hget, pureStep, StepRun.mutateContext,
        hnone]
      have h3 : fs.length - i = 1 := by omega
      have h5 : fs.drop (i + 1) = [] := List.drop_eq_nil_of_le (by omega)
      rw [h3, hdrop, h5, List.foldl_cons, List.foldl_nil]
      rfl
    · have hsome : nextIndex (fs.map pureStep) (i : Int) =
          some ((i : Int) + 1) := by
        apply nextIndex_mid
        omega
      have hi1 : i + 1 < fs.length := by omega
      have hcast : ((i : Int) + 1) = ((i + 1 : Nat) : Int) := by push_cast; ring
      rw [hcast] at hsome
      have hc1 := ih (i + 1) (fs[i] ctx) hi1 (by omega)
      simp only [Sequence.runStep, hstep, hget, pureStep, StepRun.mutateContext,
        hsome, hc1]
      have h4 : fs.length - i = (fs.length - (i + 1)) + 1 := by omega
      rw [h4, List.range'_succ, castTrace_cons, Option.map_some', hdrop,
        List.foldl_cons]

/-- C1 counterexample: the claim includes N = 0, but on a Sequence with
zero registered steps `run` rejects with the step-not-found error
(throwing from `runStep(0)`) instead of resolving successfully. -/
theorem run_empty_sequence_rejects :
    ((Sequence.mk ([] : List (SequenceStepCallback Nat)) [] 0).run 5
      (RunOptions.mk none none)).2
      = some ([], Except.error
          (JSError.genericError "No step function found at index 0.")) := rfl

/-- C1 (amended to N ≥ 1): for every Sequence with at least one
registered step, all of whose callbacks complete normally (no navigation
signal, no thrown error), `run` invokes each registered step exactly
once, in index order 0, 1, ..., N-1, and then resolves successfully. -/
theorem run_invokes_steps_in_order (Ctx : Type) (seq : Sequence Ctx)
    (options : RunOptions Ctx) (fuel : Nat)
    (hok : ∀ f ∈ seq.steps, ∀ sc c, (f sc c).1 = Except.ok ())
    (hne : seq.steps ≠ [])
    (hfuel : seq.steps.length ≤ fuel) :
    ((seq.run fuel options).2).map (fun p => (p.1, p.2.isOk)) =
      some (castTrace (List.range seq.steps.length), true) := by
  have hi : 0 < seq.steps.length := List.length_pos.mpr hne
  obtain ⟨c1, hc1⟩ := runStep_allOk seq hok fuel 0
    (options.context.getD seq.context) hi (by omega)
  rw [Nat.cast_zero, Nat.sub_zero] at hc1
  unfold Sequence.run
  rw [hc1, Option.map_some', List.range_eq_range']
  rfl

/-- C1 witness: a concrete two-step sequence with no navigation calls
runs steps 0 then 1 and resolves. -/
theorem run_invokes_steps_in_order_witness :
    ((((Sequence.mk [pureStep (fun n => n + 1), pureStep (fun n => n * 3)]
      [] (1 : Nat)).run 2 (RunOptions.mk none none)).2).map
        (fun p => (p.1, p.2.isOk)) =
      some (castTrace (List.range 2), true)) :=
  run_invokes_steps_in_order Nat
    (Sequence.mk [pureStep (fun n => n + 1), pureStep (fun n => n * 3)] [] 1)
    (RunOptions.mk none none) 2
    (by intro f hf sc c; fin_cases hf <;> rfl)
    (by simp) (by simp)

/-- C2 (code bug): `run` accepts a `signal` option but never reads it —
the source carries `TODO: abort with AbortController` — so a run is
entirely independent of the supplied token, and in particular a run
given an already-cancelled token still invokes step callbacks: with one
registered step and an aborted signal the invocation trace is [0], not
the [] the claim requires. -/
theorem run_ignores_abort_signal :
    (∀ (Ctx : Type) (seq : Sequence Ctx) (fuel : Nat) (c : Option Ctx)
      (s : Option AbortSignal),
      seq.run fuel (RunOptions.mk c s) = seq.run fuel (RunOptions.mk c none)) ∧
    ((Sequence.mk [pureStep (fun n => n + 1)] [] (0 : Nat)).run 3
      (RunOptions.mk none (some (AbortSignal.mk true)))).2
      = some ([0], Except.ok 1) :=
  ⟨fun _ _ _ _ _ => rfl, rfl⟩

/-- C10: every call to `run` leaves the registered step list, the
label→index map and the stored default context unchanged — the
dispatcher threads the sequence state through every dispatch cycle and
no branch modifies it, whether the run resolves, rejects, or exhausts
its fuel — so repeated runs execute over the same immutable step list
and give the same outcome. -/
theorem run_preserves_sequence (Ctx : Type) (seq : Sequence Ctx)
    (fuel : Nat) (options : RunOptions Ctx) :
    (seq.run fuel options).1.steps = seq.steps ∧
    (seq.run fuel options).1.stepsLabelIndexMap = seq.stepsLabelIndexMap ∧
    (seq.run fuel options).1.context = seq.context ∧
    ((seq.run fuel options).1).run fuel options = seq.run fuel options := by
  have h := runStep_state seq fuel 0 (options.context.getD seq.context)
  unfold Sequence.run
  rw [h]
  exact ⟨rfl, rfl, rfl, rfl⟩

/-- C8 counterexample: the claim quantifies over every Sequence carrying
a shared context, but with zero registered steps `run` rejects instead
of resolving with the (per-run override) context value 7. -/
theorem run_with_context_empty_rejects :
    ((Sequence.mk ([] : List (SequenceStepCallback Int)) [] (0 : Int)).run 4
      (RunOptions.mk (some 7) none)).2
      = some ([], Except.error
          (JSError.genericError "No step function found at index 0.")) := rfl

/-- C8 (amended to N ≥ 1): for every Sequence of context-mutating steps,
each invocation receives the shared context as produced by the steps
before it, starting from `options.context` when supplied and from the
constructor's context otherwise, and `run` resolves with the final
shared context: the left fold of the mutations of every step that
executed. -/
theorem run_returns_final_context (Ctx : Type) (fs : List (Ctx → Ctx))
    (lm : List (String × Nat)) (c0 : Ctx) (options : RunOptions Ctx)
    (fuel : Nat) (hne : fs ≠ []) (hfuel : fs.length ≤ fuel) :
    ((Sequence.mk (fs.map pureStep) lm c0).run fuel options).2 =
      some (castTrace (List.range fs.length),
        Except.ok (fs.foldl (fun c f => f c) (options.context.getD c0))) := by
  have hi : 0 < fs.length := List.length_pos.mpr hne
  have h := runStep_fold fs lm c0 fuel 0 (options.context.getD c0) hi (by omega)
  rw [Nat.cast_zero, Nat.sub_zero, List.drop_zero] at h
  unfold Sequence.run
  rw [List.range_eq_range']
  exact h

/-- C8 witness: two mutating steps over a per-run override context. -/
theorem run_returns_final_context_witness :
    ((Sequence.mk [pureStep (fun n => n + 1), pureStep (fun n => n * 2)]
      [] (3 : Nat)).run 5 (RunOptions.mk (some 10) none)).2 =
      some (castTrace (List.range 2), Except.ok 22) :=
  run_returns_final_context Nat [fun n => n + 1, fun n => n * 2] [] 3
    (RunOptions.mk (some 10) none) 5 (by simp) (by simp)

theorem find?_eq_none_of_not_has (m : List (String × Nat)) (k : String)
    (h : mapHas m k = false) : m.find? (fun p => p.1 == k) = none := by
  unfold mapHas mapGet at h
  rcases hfind : m.find? (fun p => p.1 == k) with _ | p
  · exact hfind
  · rw [hfind] at h
    simp at h

theorem mapGet_mapSet_new (m : List (String × Nat)) (k : String) (v : Nat)
    (h : mapHas m k = false) : mapGet (mapSet m k v) k = some v := by
  unfold mapSet
  rw [if_neg (by rw [h]; exact Bool.false_ne_true)]
  unfold mapGet
  rw [List.find?_append, find?_eq_none_of_not_has m k h]
  simp [List.find?]

/-- C3 counterexample: registering a second step under the already-used
label "a" raises the duplicate-label error, yet the failing call has
already pushed the rejected callback: the step list grows from 1 to 2
entries, refuting "no new step is added to the step list by the failing
call". -/
theorem duplicate_label_pushes_step :
    ((((Sequence.mk ([] : List (SequenceStepCallback Nat)) [] 0).stepLabeled
        "a" (pureStep (fun n => n + 1))).1.stepLabeled "a"
        (pureStep (fun n => n * 2))).2
      = some (JSError.genericError
          "Step function with label \"a\" already defined.")) ∧
    ((((Sequence.mk ([] : List (SequenceStepCallback Nat)) [] 0).stepLabeled
        "a" (pureStep (fun n => n + 1))).1.stepLabeled "a"
        (pureStep (fun n => n * 2))).1.steps.length = 2) :=
  ⟨rfl, rfl⟩

/-- C3 (amended): registering a second step under an already-registered
label fails at registration time with the duplicate-label error; the
label→index map and the stored default context are untouched and every
previously registered step keeps its callback and position, so the first
registration remains intact, and the sequence remains usable for
subsequent registrations with distinct labels (which succeed and map to
the index that follows the orphan) — but, contrary to the claim, the
failing call does append the rejected callback to the step list (at the
next index, without any label entry). -/
theorem duplicate_label_error_state (Ctx : Type) (seq : Sequence Ctx)
    (label : String) (cb : SequenceStepCallback Ctx)
    (hdup : mapHas seq.stepsLabelIndexMap label = true) :
    (seq.stepLabeled label cb).2 = some (JSError.genericError
        s!"Step function with label \"{label}\" already defined.") ∧
    (seq.stepLabeled label cb).1.stepsLabelIndexMap
      = seq.stepsLabelIndexMap ∧
    (seq.stepLabeled label cb).1.steps = seq.steps ++ [cb] ∧
    (seq.stepLabeled label cb).1.context = seq.context ∧
    ∀ (label2 : String) (cb2 : SequenceStepCallback Ctx),
      mapHas seq.stepsLabelIndexMap label2 = false →
      ((seq.stepLabeled label cb).1.stepLabeled label2 cb2).2 = none ∧
      mapGet ((seq.stepLabeled label cb).1.stepLabeled label2
          cb2).1.stepsLabelIndexMap label2
        = some (seq.steps.length + 1) := by
  unfold Sequence.stepLabeled
  rw [if_pos hdup]
  refine ⟨rfl, rfl, rfl, rfl, ?_⟩
  intro label2 cb2 h2
  rw [if_neg (by rw [h2]; exact Bool.false_ne_true)]
  refine ⟨rfl, ?_⟩
  rw [mapGet_mapSet_new _ _ _ h2]
  simp

/-- C3 witness: a concrete one-step sequence labeled "a" rejects a second
"a" registration with the duplicate-label error. -/
theorem duplicate_label_error_state_witness :
    (mapHas [("a", 0)] "a" = true) ∧
    ((Sequence.mk [pureStep (fun n => n + 1)] [("a", 0)]
        (0 : Nat)).stepLabeled "a" (pureStep (fun n => n * 2))).2
      = some (JSError.genericError
          "Step function with label \"a\" already defined.") :=
  ⟨rfl, (duplicate_label_error_state Nat
    (Sequence.mk [pureStep (fun n => n + 1)] [("a", 0)] 0) "a"
    (pureStep (fun n => n * 2)) rfl).1⟩

/-- The five-step scenario of the spec and of the test "skips steps":
A calls skip, B calls jump(-1), C is plain, D calls stop, E calls back. -/
def fiveStepSeq : Sequence Nat :=
  Sequence.mk
    [callNav (fun sc => sc.skip),
     callNav (fun sc => sc.jump (Sum.inl (-1))),
     pureStep (fun n => n + 100),
     callNav (fun sc => sc.stop),
     callNav (fun sc => sc.back)]
    [] 0

/-- C4 counterexample: running the five-step scenario invokes the steps
at indices 0, 1, 4, 3 — step E (index 4) does execute, because jump(-1)
targets the last registered step E, not D — refuting the claimed
execution order A, B, D with E never invoked. -/
theorem five_step_scenario_trace :
    (((fiveStepSeq.run 10 (RunOptions.mk none none)).2).map Prod.fst
      = some [0, 1, 4, 3]) ∧
    ([0, 1, 4, 3] : List Int) ≠ [0, 1, 3] :=
  ⟨rfl, by decide⟩

/-- C4 (amended): the five-step scenario executes A, then B, then E,
then D, in that order — B's jump(-1) resolves to the last registered
step E (index 4), E's back() moves to D (index 3), and D stops — the
run resolves, and step C (index 2) never executes. -/
theorem five_step_scenario_amended :
    ((fiveStepSeq.run 10 (RunOptions.mk none none)).2
      = some ([0, 1, 4, 3], Except.ok 0)) ∧
    (2 : Int) ∉ ([0, 1, 4, 3] : List Int) :=
  ⟨rfl, by decide⟩

/-- C5: whenever the step at index i signals stop, the dispatch
terminates right there: the result is resolution (not rejection) with
the context as mutated so far, the invocation trace from i on is exactly
[i] — so no step with index greater than i (indeed no step at all) is
invoked afterwards — and any step-body code sequenced after the stop()
call never executes, since stop short-circuits the remainder of the
body. -/
theorem stop_terminates_immediately (Ctx : Type) (seq : Sequence Ctx)
    (fuel : Nat) (i : Int) (ctx ctx1 : Ctx) (f : SequenceStepCallback Ctx)
    (hf : lookupStep seq.steps i = some f)
    (hstop : f (mkStepContext seq.steps seq.stepsLabelIndexMap i
        (nextIndex seq.steps i)) ctx
      = (Except.error JSError.sequenceStop, ctx1)) :
    (seq.runStep (fuel + 1) i ctx).2 = some ([i], Except.ok ctx1) ∧
    ∀ (β : Type) (k : Empty → StepRun Ctx β) (c : Ctx),
      StepRun.bind ((mkStepContext seq.steps seq.stepsLabelIndexMap i
        (nextIndex seq.steps i)).stop) k c
        = (Except.error JSError.sequenceStop, c) := by
  constructor
  · simp only [Sequence.runStep, hf, hstop]
  · intro β k c
    rfl

/-- C5 witness: a two-step sequence whose first step stops; the second
step is never invoked and the run resolves with the context unchanged. -/
theorem stop_terminates_immediately_witness :
    ((Sequence.mk [callNav (fun sc => sc.stop), pureStep (fun n => n + 1)]
      [] (0 : Nat)).runStep 4 0 5).2 = some ([0], Except.ok 5) :=
  (stop_terminates_immediately Nat
    (Sequence.mk [callNav (fun sc => sc.stop), pureStep (fun n => n + 1)] [] 0)
    3 0 5 5 (callNav (fun sc => sc.stop)) rfl rfl).1

/-- C6: for every Sequence with N ≥ 1 steps, jump(-1) from any step is
the last-step sentinel: the context's jump operation at -1 raises the
jump signal resolved against the current step count to index N-1 (not
the literal index -1), the dispatcher continues at N-1 whatever the
current index i is, and the step at N-1 — the last registered step — is
the next one invoked. -/
theorem jump_neg_one_targets_last (Ctx : Type) (seq : Sequence Ctx)
    (fuel : Nat) (i : Int) (ctx : Ctx) (f : SequenceStepCallback Ctx)
    (hN : 1 ≤ seq.steps.length)
    (hf : lookupStep seq.steps i = some f)
    (hcall : f (mkStepContext seq.steps seq.stepsLabelIndexMap i
        (nextIndex seq.steps i)) ctx
      = StepRun.bind ((mkStepContext seq.steps seq.stepsLabelIndexMap i
          (nextIndex seq.steps i)).jump (Sum.inl (-1)))
          (fun e => e.elim) ctx) :
    ((mkStepContext seq.steps seq.stepsLabelIndexMap i
        (nextIndex seq.steps i)).jump (Sum.inl (-1))
      = StepRun.throwErr (JSError.sequenceJump
          (some ((seq.steps.length : Int) - 1)))) ∧
    ((seq.runStep (fuel + 1) i ctx).2
      = ((seq.runStep fuel ((seq.steps.length : Int) - 1) ctx).2).map
          (fun p => (i :: p.1, p.2))) ∧
    ∀ (tr : List Int) (r : Except JSError Ctx),
      (seq.runStep (fuel + 1 + 1) i ctx).2 = some (tr, r) →
      ∃ tl, tr = i :: ((seq.steps.length : Int) - 1) :: tl := by
  have h1 : f (mkStepContext seq.steps seq.stepsLabelIndexMap i
      (nextIndex seq.steps i)) ctx
      = (Except.error (JSError.sequenceJump
          (some ((seq.steps.length : Int) - 1))), ctx) := hcall
  refine ⟨rfl, ?_, ?_⟩
  · simp only [Sequence.runStep, hf, h1]
  · intro tr r h
    have h2 : (seq.runStep (fuel + 1 + 1) i ctx).2
        = ((seq.runStep (fuel + 1) ((seq.steps.length : Int) - 1) ctx).2).map
            (fun p => (i :: p.1, p.2)) := by
      simp only [Sequence.runStep, hf, h1]
    rw [h2] at h
    obtain ⟨p, hp, heq⟩ := Option.map_eq_some'.mp h
    cases heq
    have hlen : ((seq.steps.length - 1 : Nat) : Int)
        = (seq.steps.length : Int) - 1 := by
      push_cast [hN]
      ring
    obtain ⟨g, hg⟩ : ∃ g,
        lookupStep seq.steps ((seq.steps.length : Int) - 1) = some g := by
      rw [← hlen]
      exact ⟨_, lookupStep_lt seq.steps (seq.steps.length - 1) (by omega)⟩
    obtain ⟨tl, htl⟩ := runStep_head seq fuel ((seq.steps.length : Int) - 1)
      ctx g hg p.1 p.2 hp
    exact ⟨tl, by rw [htl]⟩

/-- C6 witness: a three-step sequence whose first step calls jump(-1);
the dispatcher continues at index 2, the last registered step. -/
theorem jump_neg_one_targets_last_witness :
    ((Sequence.mk
      [callNav (fun sc => sc.jump (Sum.inl (-1))), pureStep (fun n => n + 1),
        callNav (fun sc => sc.stop)] [] (0 : Nat)).runStep 4 0 7).2
      = (((Sequence.mk
        [callNav (fun sc => sc.jump (Sum.inl (-1))), pureStep (fun n => n + 1),
          callNav (fun sc => sc.stop)] [] (0 : Nat)).runStep 3 2 7).2).map
          (fun p => ((0 : Int) :: p.1, p.2)) :=
  (jump_neg_one_targets_last Nat
    (Sequence.mk
      [callNav (fun sc => sc.jump (Sum.inl (-1))), pureStep (fun n => n + 1),
        callNav (fun sc => sc.stop)] [] 0)
    3 0 7 (callNav (fun sc => sc.jump (Sum.inl (-1))))
    (by decide) rfl rfl).2.1

/-- C7: jump with a string label resolves through the label→index map.
When the label is registered at index j (of an existing step), the
dispatcher continues at j and the step registered there is the next one
invoked.  When the label is unregistered, jump throws the plain
label-not-found error right at the call — a generic error, not a
stop/jump control signal, short-circuiting the rest of the step body —
the dispatch at that step rejects with exactly that error, and when it
is step 0, the whole run rejects with it. -/
theorem jump_label_resolution (Ctx : Type) (seq : Sequence Ctx)
    (i : Int) (ctx : Ctx) (f : SequenceStepCallback Ctx) (label : String)
    (hf : lookupStep seq.steps i = some f)
    (hcall : ∀ c, f (mkStepContext seq.steps seq.stepsLabelIndexMap i
        (nextIndex seq.steps i)) c
      = StepRun.bind ((mkStepContext seq.steps seq.stepsLabelIndexMap i
          (nextIndex seq.steps i)).jump (Sum.inr label))
          (fun e => e.elim) c) :
    (∀ j : Nat, mapGet seq.stepsLabelIndexMap label = some j →
      j < seq.steps.length →
      ∀ (fuel : Nat) (tr : List Int) (r : Except JSError Ctx),
        (seq.runStep (fuel + 1 + 1) i ctx).2 = some (tr, r) →
        ∃ tl, tr = i :: (j : Int) :: tl) ∧
    (mapGet seq.stepsLabelIndexMap label = none →
      ((mkStepContext seq.steps seq.stepsLabelIndexMap i
          (nextIndex seq.steps i)).jump (Sum.inr label)
        = StepRun.throwErr (JSError.genericError
            s!"No step function found with label \"{label}\".")) ∧
      (∀ fuel : Nat, (seq.runStep (fuel + 1) i ctx).2
        = some ([i], Except.error (JSError.genericError
            s!"No step function found with label \"{label}\"."))) ∧
      (i = 0 → ∀ (fuel : Nat) (options : RunOptions Ctx),
        (seq.run (fuel + 1) options).2
          = some ([0], Except.error (JSError.genericError
              s!"No step function found with label \"{label}\".")))) := by
  constructor
  · intro j hj hjlt fuel tr r h
    have h1 : (mkStepContext seq.steps seq.stepsLabelIndexMap i
        (nextIndex seq.steps i)).jump (Sum.inr label)
        = StepRun.throwErr (JSError.sequenceJump (some (j : Int))) := by
      simp only [mkStepContext, hj]
    have h2 : ∀ c, f (mkStepContext seq.steps seq.stepsLabelIndexMap i
        (nextIndex seq.steps i)) c
        = (Except.error (JSError.sequenceJump (some (j : Int))), c) :=
      fun c => by rw [hcall c, h1]; rfl
    have h3 : (seq.runStep (fuel + 1 + 1) i ctx).2
        = ((seq.runStep (fuel + 1) (j : Int) ctx).2).map
            (fun p => (i :: p.1, p.2)) := by
      simp only [Sequence.runStep, hf, h2]
    rw [h3] at h
    obtain ⟨p, hp, heq⟩ := Option.map_eq_some'.mp h
    cases heq
    obtain ⟨tl, htl⟩ := runStep_head seq fuel (j : Int) ctx _
      (lookupStep_lt seq.steps j hjlt) p.1 p.2 hp
    exact ⟨tl, by rw [htl]⟩
  · intro hnone
    have h1 : (mkStepContext seq.steps seq.stepsLabelIndexMap i
        (nextIndex seq.steps i)).jump (Sum.inr label)
        = StepRun.throwErr (JSError.genericError
            s!"No step function found with label \"{label}\".") := by
      simp only [mkStepContext, hnone]
    have h2 : ∀ c, f (mkStepContext seq.steps seq.stepsLabelIndexMap i
        (nextIndex seq.steps i)) c
        = (Except.error (JSError.genericError
            s!"No step function found with label \"{label}\"."), c) :=
      fun c => by rw [hcall c, h1]; rfl
    refine ⟨h1, ?_, ?_⟩
    · intro fuel
      simp only [Sequence.runStep, hf, h2]
    · intro hi0 fuel options
      subst hi0
      unfold Sequence.run
      simp only [Sequence.runStep, hf, h2]

/-- C7 witness: a one-step sequence whose step jumps to the unregistered
label "nope"; the run rejects with the label-not-found error. -/
theorem jump_label_resolution_witness :
    ((Sequence.mk [callNav (fun sc => sc.jump (Sum.inr "nope"))] []
      (0 : Nat)).runStep 3 0 5).2
      = some ([0], Except.error (JSError.genericError
          "No step function found with label \"nope\".")) :=
  ((jump_label_resolution Nat
    (Sequence.mk [callNav (fun sc => sc.jump (Sum.inr "nope"))] [] 0)
    0 5 (callNav (fun sc => sc.jump (Sum.inr "nope"))) "nope"
    rfl (fun _ => rfl)).2 rfl).2.1 2

/-- C9: the step-not-found rejection ("No step function found at index
i.") is reachable from the public interface in three ways: (a) `run` on
a Sequence with zero registered steps rejects with the index-0 message
while invoking no callback; (b) back() from the step at index 0 resolves
the target to -1 and the dispatch rejects with the index minus-one
message after invoking only step 0 — a navigation error, not a graceful
termination; (c) jump(t) with an integer t that is neither -1 nor the
index of a registered step rejects with the index-t message after
invoking only the jumping step. -/
theorem step_not_found_reachable :
    (∀ (Ctx : Type) (lm : List (String × Nat)) (c0 : Ctx)
      (options : RunOptions Ctx) (fuel : Nat),
      ((Sequence.mk ([] : List (SequenceStepCallback Ctx)) lm c0).run
        (fuel + 1) options).2
        = some ([], Except.error
            (JSError.genericError "No step function found at index 0."))) ∧
    (∀ (Ctx : Type) (seq : Sequence Ctx) (ctx : Ctx)
      (f : SequenceStepCallback Ctx) (fuel : Nat),
      lookupStep seq.steps 0 = some f →
      (∀ c, f (mkStepContext seq.steps seq.stepsLabelIndexMap 0
          (nextIndex seq.steps 0)) c
        = StepRun.bind ((mkStepContext seq.steps seq.stepsLabelIndexMap 0
            (nextIndex seq.steps 0)).back) (fun e => e.elim) c) →
      (seq.runStep (fuel + 1 + 1) 0 ctx).2
        = some ([0], Except.error
            (JSError.genericError "No step function found at index -1."))) ∧
    (∀ (Ctx : Type) (seq : Sequence Ctx) (ctx : Ctx) (i t : Int)
      (f : SequenceStepCallback Ctx) (fuel : Nat),
      lookupStep seq.steps i = some f →
      t ≠ -1 → (t < 0 ∨ (seq.steps.length : Int) ≤ t) →
      (∀ c, f (mkStepContext seq.steps seq.stepsLabelIndexMap i
          (nextIndex seq.steps i)) c
        = StepRun.bind ((mkStepContext seq.steps seq.stepsLabelIndexMap i
            (nextIndex seq.steps i)).jump (Sum.inl t)) (fun e => e.elim) c) →
      (seq.runStep (fuel + 1 + 1) i ctx).2
        = some ([i], Except.error
            (JSError.genericError s!"No step function found at index {t}."))) := by
  refine ⟨?_, ?_, ?_⟩
  · intro Ctx lm c0 options fuel
    rfl
  · intro Ctx seq ctx f fuel hf hcall
    have h1 : ∀ c, f (mkStepContext seq.steps seq.stepsLabelIndexMap 0
        (nextIndex seq.steps 0)) c
        = (Except.error (JSError.sequenceJump (some ((0 : Int) - 1))), c) :=
      fun c => by rw [hcall c]; rfl
    have hlk : lookupStep seq.steps ((0 : Int) - 1) = none :=
      lookupStep_neg _ _ (by norm_num)
    simp only [Sequence.runStep, hf, h1, hlk, Option.map_some']
    rfl
  · intro Ctx seq ctx i t f fuel hf ht hrange hcall
    have hj : (mkStepContext seq.steps seq.stepsLabelIndexMap i
        (nextIndex seq.steps i)).jump (Sum.inl t)
        = StepRun.throwErr (JSError.sequenceJump (some t)) := by
      simp only [mkStepContext]
      rw [if_neg ht]
    have h1 : ∀ c, f (mkStepContext seq.steps seq.stepsLabelIndexMap i
        (nextIndex seq.steps i)) c
        = (Except.error (JSError.sequenceJump (some t)), c) :=
      fun c => by rw [hcall c, hj]; rfl
    have hlk : lookupStep seq.steps t = none := by
      rcases hrange with hlow | hhigh
      · exact lookupStep_neg _ _ hlow
      · exact lookupStep_ge _ _ hhigh
    simp only [Sequence.runStep, hf, h1, hlk, Option.map_some']

/-- C9 witness: a one-step sequence whose step calls jump(5); the
dispatch rejects with the index-5 step-not-found message. -/
theorem step_not_found_reachable_witness :
    ((Sequence.mk [callNav (fun sc => sc.jump (Sum.inl 5))] []
      (0 : Nat)).runStep 3 0 4).2
      = some ([0], Except.error
          (JSError.genericError "No step function found at index 5.")) :=
  step_not_found_reachable.2.2 Nat
    (Sequence.mk [callNav (fun sc => sc.jump (Sum.inl 5))] [] 0)
    4 0 5 (callNav (fun sc => sc.jump (Sum.inl 5))) 1
    rfl (by decide) (Or.inr (by decide)) (fun _ => rfl)

end SequenceTs
